import Mathlib

/-!
Shallow embedding of the invoice-generation pipeline of this repository
(`generate_invoices.py`, `run-reu_claude.py`, `run-reu_mistral.py`).

Timestamps are modelled after Python `datetime.datetime`: a record of
calendar fields, compared lexicographically.  Timezone awareness is a
boolean flag on a timestamp; Python raises `TypeError` when an aware and
a naive datetime are compared or subtracted, which is modelled with
`Except`.  Missing iCal fields (`component.get(...)` returning `None`
followed by an `.dt` access) surface as `AttributeError`, likewise
modelled with `Except`.
-/

/-- Python `datetime.datetime` (naive part): the six calendar fields. -/
structure PyDateTime where
  year : Nat
  month : Nat
  day : Nat
  hour : Nat
  minute : Nat
  second : Nat
deriving DecidableEq, Repr

/-- Lexicographic `<=` on the six fields, as CPython compares datetimes. -/
def PyDateTime.le (a b : PyDateTime) : Prop :=
  a.year < b.year ∨ (a.year = b.year ∧ (a.month < b.month ∨ (a.month = b.month ∧
    (a.day < b.day ∨ (a.day = b.day ∧ (a.hour < b.hour ∨ (a.hour = b.hour ∧
      (a.minute < b.minute ∨ (a.minute = b.minute ∧ a.second ≤ b.second)))))))))

/-- Lexicographic `<` on the six fields. -/
def PyDateTime.lt (a b : PyDateTime) : Prop :=
  a.year < b.year ∨ (a.year = b.year ∧ (a.month < b.month ∨ (a.month = b.month ∧
    (a.day < b.day ∨ (a.day = b.day ∧ (a.hour < b.hour ∨ (a.hour = b.hour ∧
      (a.minute < b.minute ∨ (a.minute = b.minute ∧ a.second < b.second)))))))))

instance (a b : PyDateTime) : Decidable (PyDateTime.le a b) := by
  unfold PyDateTime.le; infer_instance

instance (a b : PyDateTime) : Decidable (PyDateTime.lt a b) := by
  unfold PyDateTime.lt; infer_instance

/-- Boolean form of datetime `<=`. -/
def dtLe (a b : PyDateTime) : Bool := decide (PyDateTime.le a b)

/-- Boolean form of datetime `<`. -/
def dtLt (a b : PyDateTime) : Bool := decide (PyDateTime.lt a b)

/-- Gregorian leap-year rule, as Python's `calendar`/`datetime` use it. -/
def isLeapYear (y : Nat) : Bool :=
  (y % 4 == 0 && y % 100 != 0) || (y % 400 == 0)

/-- Length of a month in the Gregorian calendar. -/
def daysInMonth (y m : Nat) : Nat :=
  if m = 2 then (if isLeapYear y then 29 else 28)
  else if m = 4 ∨ m = 6 ∨ m = 9 ∨ m = 11 then 30
  else 31

/-- `dt - timedelta(days=1)` on a valid Python datetime: step one calendar
day back, keeping the time of day. -/
def predDay (t : PyDateTime) : PyDateTime :=
  if 1 < t.day then { t with day := t.day - 1 }
  else if 1 < t.month then { t with month := t.month - 1, day := daysInMonth t.year (t.month - 1) }
  else { t with year := t.year - 1, month := 12, day := 31 }

/-- `start_date = datetime(year, month, 1)` of
`filter_events_by_month_and_year` in `generate_invoices.py`. -/
def periodStart (month year : Nat) : PyDateTime := ⟨year, month, 1, 0, 0, 0⟩

/-- `end_date` of `filter_events_by_month_and_year` in
`generate_invoices.py`: `datetime(year, month + 1, 1) - timedelta(days=1)`,
with the December case using `datetime(year + 1, 1, 1)`. -/
def periodEnd (month year : Nat) : PyDateTime :=
  if month = 12 then predDay ⟨year + 1, 1, 1, 0, 0, 0⟩
  else predDay ⟨year, month + 1, 1, 0, 0, 0⟩

/-- Days of the proleptic Gregorian calendar strictly before year `y`
(the closed form matching `datetime.date.toordinal`). -/
def daysBeforeYear (y : Nat) : Nat :=
  365 * (y - 1) + (y - 1) / 4 + (y - 1) / 400 - (y - 1) / 100

/-- Days of year `y` strictly before month `m`. -/
def daysBeforeMonth (y m : Nat) : Nat :=
  ((List.range (m - 1)).map (fun i => daysInMonth y (i + 1))).sum

/-- Ordinal day number of a datetime's date. -/
def toDayNumber (t : PyDateTime) : Nat :=
  daysBeforeYear t.year + daysBeforeMonth t.year t.month + (t.day - 1)

/-- A datetime as a second count; Python datetime subtraction is the
difference of these counts (as a `timedelta` in seconds). -/
def toSecs (t : PyDateTime) : Int :=
  86400 * (toDayNumber t : Int) + 3600 * (t.hour : Int)
    + 60 * (t.minute : Int) + (t.second : Int)

/-- Python errors the embedded code can raise. -/
inductive PyError where
  | attributeError : PyError
  | typeError : PyError
deriving DecidableEq, Repr

deriving instance DecidableEq for Except

/-- A Python datetime value together with its timezone-awareness flag
(`tzinfo is not None`).  The wall-clock fields of an aware value are
those of its own timezone. -/
structure PyTimestamp where
  dt : PyDateTime
  aware : Bool
deriving DecidableEq, Repr

/-- A `DTSTART`/`DTEND` value as the `icalendar` library delivers it:
either a plain `date` (all-day entry) or a `datetime`, aware or naive. -/
inductive ICalDT where
  | dateOnly (y m d : Nat) : ICalDT
  | dateTime (dt : PyDateTime) (aware : Bool) : ICalDT
deriving DecidableEq, Repr

/-- `ensure_datetime` of `generate_invoices.py`: a bare `date` becomes
`datetime.combine(d, datetime.min.time())`, i.e. naive local midnight. -/
def ensure_datetime : ICalDT → PyTimestamp
  | .dateOnly y m d => ⟨⟨y, m, d, 0, 0, 0⟩, false⟩
  | .dateTime dt aware => ⟨dt, aware⟩

/-- `convert_to_local_time` of `generate_invoices.py`: a naive value is
returned unchanged; an aware value is converted to the Vienna wall clock
(`loc` stands for that external `pytz` conversion) and stripped of its
tzinfo (`replace(tzinfo=None)`). -/
def convert_to_local_time (loc : PyDateTime → PyDateTime) (t : PyTimestamp) : PyTimestamp :=
  if t.aware then ⟨loc t.dt, false⟩ else t

/-- Python `<=` between two datetimes: raises `TypeError` when exactly
one operand is aware; otherwise compares the calendar fields. -/
def pyLe (a b : PyTimestamp) : Except PyError Bool :=
  if a.aware = b.aware then .ok (dtLe a.dt b.dt) else .error .typeError

/-- Python datetime subtraction `a - b` (a `timedelta` in seconds):
raises `TypeError` when exactly one operand is aware. -/
def pySub (a b : PyTimestamp) : Except PyError Int :=
  if a.aware = b.aware then .ok (toSecs a.dt - toSecs b.dt) else .error .typeError

/-- A Python chained comparison `a <= b <= c` (short-circuiting). -/
def chainLe3 (a b c : PyTimestamp) : Except PyError Bool :=
  match pyLe a b with
  | .error e => .error e
  | .ok false => .ok false
  | .ok true => pyLe b c

/-- One VEVENT as the pipeline consumes it.  A missing `DTSTART`/`DTEND`
is `none`; a missing description is the empty string. -/
structure VEvent where
  dtstart : Option ICalDT
  dtend : Option ICalDT
  summary : List Char
  description : List Char
deriving DecidableEq, Repr

/-- The per-event body of `filter_events_by_month_and_year` in
`generate_invoices.py`: `component.get('dtstart').dt` (an
`AttributeError` on a missing field), `ensure_datetime`,
`convert_to_local_time`, then
`start_date <= event_start <= end_date or start_date <= event_end <= end_date`. -/
def filterOneEvent (loc : PyDateTime → PyDateTime) (month year : Nat) (ev : VEvent) :
    Except PyError Bool :=
  match ev.dtstart, ev.dtend with
  | none, _ => .error .attributeError
  | some _, none => .error .attributeError
  | some s, some e =>
    let es := convert_to_local_time loc (ensure_datetime s)
    let ee := convert_to_local_time loc (ensure_datetime e)
    match chainLe3 ⟨periodStart month year, false⟩ es ⟨periodEnd month year, false⟩ with
    | .error er => .error er
    | .ok true => .ok true
    | .ok false => chainLe3 ⟨periodStart month year, false⟩ ee ⟨periodEnd month year, false⟩

/-- `filter_events_by_month_and_year` of `generate_invoices.py` over the
feed's VEVENTs: the Python loop appends the selected events in feed
order; an exception raised for any event aborts the whole call. -/
def filter_events_by_month_and_year (loc : PyDateTime → PyDateTime) (month year : Nat) :
    List VEvent → Except PyError (List VEvent)
  | [] => .ok []
  | ev :: rest =>
    match filterOneEvent loc month year ev with
    | .error e => .error e
    | .ok keep =>
      match filter_events_by_month_and_year loc month year rest with
      | .error e => .error e
      | .ok tail => .ok (if keep then ev :: tail else tail)

/-- `[A-Z]` of the customer-code regular expression. -/
def isUpperAlpha (c : Char) : Bool := decide ('A' ≤ c) && decide (c ≤ 'Z')

/-- Python whitespace stripped by `str.strip()` (ASCII part). -/
def isPySpace (c : Char) : Bool :=
  c == ' ' || c == '\t' || c == '\n' || c == '\r' || c == '\x0b' || c == '\x0c'

/-- Python `str.strip()`: drop leading and trailing whitespace. -/
def pyStrip (s : List Char) : List Char :=
  ((s.dropWhile isPySpace).reverse.dropWhile isPySpace).reverse

/-- `re.match(r'^([A-Z]{3}):', description)` of `run-reu_claude.py` (the
same pattern `generate_invoices.py` uses): anchored at position 0, three
uppercase ASCII letters, then a colon; returns the capture group. -/
def matchCode (s : List Char) : Option (List Char) :=
  match s with
  | c1 :: c2 :: c3 :: c4 :: _ =>
    if isUpperAlpha c1 && isUpperAlpha c2 && isUpperAlpha c3 && c4 == ':'
    then some [c1, c2, c3] else none
  | _ => none

/-- The classification step of `run-reu_claude.py` (`parse_ical`, the
canonical classifier of the spec): on a match the customer code is the
capture group and the cleaned description is `description[4:].strip()`. -/
def classifyDescription (d : List Char) : Option (List Char × List Char) :=
  match matchCode d with
  | some code => some (code, pyStrip (d.drop 4))
  | none => none

/-- Written from the spec's words, for comparison with the code:
the description begins, anchored at position 0, with exactly three
uppercase ASCII letters immediately followed by a colon. -/
def beginsWithCustomerCode (d : List Char) : Prop :=
  ∃ c1 c2 c3 rest, d = c1 :: c2 :: c3 :: ':' :: rest ∧
    ('A' ≤ c1 ∧ c1 ≤ 'Z') ∧ ('A' ≤ c2 ∧ c2 ≤ 'Z') ∧ ('A' ≤ c3 ∧ c3 ≤ 'Z')

/-- Timestamp normalization of `run-reu_claude.py` (`parse_ical`): an
aware datetime is `astimezone(local_tz)` — converted to the local wall
clock (`loc`) but left aware; a bare date is combined with midnight and
then `replace(tzinfo=local_tz)` — made aware; a naive datetime is left
unchanged. -/
def claudeNormalize (loc : PyDateTime → PyDateTime) : ICalDT → PyTimestamp
  | .dateTime dt true => ⟨loc dt, true⟩
  | .dateOnly y m d => ⟨⟨y, m, d, 0, 0, 0⟩, true⟩
  | .dateTime dt false => ⟨dt, false⟩

/-- The event dict `run-reu_claude.py` appends: customer code, start
timestamp (key `'date'`), summary, cleaned description, optional
duration in seconds. -/
structure ClassifiedEvent where
  customer_code : List Char
  date : PyTimestamp
  summary : List Char
  description : List Char
  duration : Option Int
deriving DecidableEq, Repr

/-- The per-VEVENT body of `parse_ical` in `run-reu_claude.py`:
`component.get('dtstart').dt` (`AttributeError` if missing), normalize,
select by `start_date.month == month and start_date.year == year`,
match the customer-code pattern, clean the description, and when a
`dtend` exists compute `duration = end_date - start_date` (a `TypeError`
when one side is aware and the other naive). -/
def parseOneEvent (loc : PyDateTime → PyDateTime) (month year : Nat) (ev : VEvent) :
    Except PyError (Option ClassifiedEvent) :=
  match ev.dtstart with
  | none => .error .attributeError
  | some s0 =>
    let sd := claudeNormalize loc s0
    if sd.dt.month = month ∧ sd.dt.year = year then
      match matchCode ev.description with
      | none => .ok none
      | some code =>
        match ev.dtend with
        | none => .ok (some ⟨code, sd, ev.summary, pyStrip (ev.description.drop 4), none⟩)
        | some e0 =>
          let ed := claudeNormalize loc e0
          match pySub ed sd with
          | .error er => .error er
          | .ok d => .ok (some ⟨code, sd, ev.summary, pyStrip (ev.description.drop 4), some d⟩)
    else .ok none

/-- `parse_ical` of `run-reu_claude.py` over the feed's VEVENTs: events
are appended in feed order; an exception for any event aborts the call. -/
def parse_ical (loc : PyDateTime → PyDateTime) (month year : Nat) :
    List VEvent → Except PyError (List ClassifiedEvent)
  | [] => .ok []
  | ev :: rest =>
    match parseOneEvent loc month year ev with
    | .error e => .error e
    | .ok r =>
      match parse_ical loc month year rest with
      | .error e => .error e
      | .ok tail => .ok (match r with | some ce => ce :: tail | none => tail)

/-- `customer_events[event['customer_code']].append(event)` on a
`defaultdict(list)`: append to the group of an existing key, or append
a fresh singleton group at the end (Python dicts keep insertion order). -/
def addToGroup : List (List Char × List ClassifiedEvent) → List Char → ClassifiedEvent →
    List (List Char × List ClassifiedEvent)
  | [], c, e => [(c, [e])]
  | (k, l) :: rest, c, e =>
    if k = c then (k, l ++ [e]) :: rest else (k, l) :: addToGroup rest c e

/-- `group_by_customer` of `run-reu_claude.py`. -/
def group_by_customer (evs : List ClassifiedEvent) : List (List Char × List ClassifiedEvent) :=
  evs.foldl (fun gs e => addToGroup gs e.customer_code e) []

/-- Dictionary lookup in the grouping result (absent key: empty list). -/
def lookupGroup : List (List Char × List ClassifiedEvent) → List Char → List ClassifiedEvent
  | [], _ => []
  | (k, l) :: rest, c => if k = c then l else lookupGroup rest c

/-- Concatenation of all groups, in dictionary order. -/
def joinGroups : List (List Char × List ClassifiedEvent) → List ClassifiedEvent
  | [] => []
  | (_, l) :: rest => l ++ joinGroups rest

/-- Stable insertion: place `e` before the first element whose date is
strictly greater, after all elements less-or-equal. -/
def insertByDate (e : ClassifiedEvent) : List ClassifiedEvent → List ClassifiedEvent
  | [] => [e]
  | x :: xs => if dtLt x.date.dt e.date.dt then x :: insertByDate e xs else e :: x :: xs

/-- `sorted(events, key=lambda x: x['date'])` of `run-reu_claude.py`'s
`create_pdf`: Python's sort is stable and ascending by key, modelled
here by a stable insertion sort on the start timestamp. -/
def sortByDate (evs : List ClassifiedEvent) : List ClassifiedEvent :=
  evs.foldr insertByDate []

/-- One step of the total in `create_pdf`: `if event['duration']:` — a
`None` duration and a zero duration are falsy and skipped, any other
duration is added to `total_duration`. -/
def addDuration (acc : Int) (ev : ClassifiedEvent) : Int :=
  match ev.duration with
  | some d => if d = 0 then acc else acc + d
  | none => acc

/-- The `total_duration` accumulated by `create_pdf` in
`run-reu_claude.py` while walking the sorted events. -/
def create_pdf_total (evs : List ClassifiedEvent) : Int :=
  (sortByDate evs).foldl addDuration 0

/-- The `divmod` formatting of `create_pdf`:
`hours, remainder = divmod(total_seconds, 3600)`;
`minutes, _ = divmod(remainder, 60)` — Python `divmod` is floor
division, so any sub-minute remainder is truncated. -/
def hoursMinutes (secs : Int) : Int × Int :=
  (Int.fdiv secs 3600, Int.fdiv (Int.fmod secs 3600) 60)

/-- The sorted per-customer event list the invoice of customer `c` is
built from: the customer's group, sorted ascending by start. -/
def invoiceEvents (evs : List ClassifiedEvent) (c : List Char) : List ClassifiedEvent :=
  sortByDate (lookupGroup (group_by_customer evs) c)

/-- A March 2024 event, 10:00 to 11:00, classified `ABC`. -/
def evGoodMar : VEvent :=
  ⟨some (.dateTime ⟨2024, 3, 5, 10, 0, 0⟩ false),
   some (.dateTime ⟨2024, 3, 5, 11, 0, 0⟩ false), [], "ABC: ok".data⟩

/-- A VEVENT without a `DTSTART`. -/
def evBadNoStart : VEvent :=
  ⟨none, some (.dateTime ⟨2024, 3, 6, 9, 0, 0⟩ false), [], "XYZ: x".data⟩

/-- A VEVENT with a `DTSTART` but no `DTEND`. -/
def evNoEnd : VEvent :=
  ⟨some (.dateTime ⟨2024, 3, 5, 10, 0, 0⟩ false), none, "Termin".data, "ABC: Pflege".data⟩

/-- An event starting before March 2024 and ending inside it. -/
def evSpan : VEvent :=
  ⟨some (.dateTime ⟨2024, 2, 20, 8, 0, 0⟩ false),
   some (.dateTime ⟨2024, 3, 5, 11, 0, 0⟩ false), [], []⟩

/-- An event whose stored end (09:00) precedes its start (10:00). -/
def evNeg : VEvent :=
  ⟨some (.dateTime ⟨2024, 3, 5, 10, 0, 0⟩ false),
   some (.dateTime ⟨2024, 3, 5, 9, 0, 0⟩ false), [], "ABC: x".data⟩

/-- An event with a timezone-aware start and a naive end. -/
def evMixed : VEvent :=
  ⟨some (.dateTime ⟨2024, 3, 5, 10, 0, 0⟩ true),
   some (.dateTime ⟨2024, 3, 5, 11, 0, 0⟩ false), [], "ABC: x".data⟩

/-- The spec's example event: 2024-03-01 09:00 to 10:30 (90 minutes). -/
def evMar90 : VEvent :=
  ⟨some (.dateTime ⟨2024, 3, 1, 9, 0, 0⟩ false),
   some (.dateTime ⟨2024, 3, 1, 10, 30, 0⟩ false), "Termin".data, "ABC: did work".data⟩

/-- A classified 90-minute event. -/
def ce90 : ClassifiedEvent :=
  ⟨"ABC".data, ⟨⟨2024, 3, 1, 9, 0, 0⟩, false⟩, "Termin".data, "did work".data, some 5400⟩

/-- A classified 45-minute event. -/
def ce45 : ClassifiedEvent :=
  ⟨"ABC".data, ⟨⟨2024, 3, 2, 9, 0, 0⟩, false⟩, [], [], some 2700⟩

/-- A classified 15-minute event. -/
def ce15 : ClassifiedEvent :=
  ⟨"ABC".data, ⟨⟨2024, 3, 3, 9, 0, 0⟩, false⟩, [], [], some 900⟩

theorem convert_to_local_time_not_aware (loc : PyDateTime → PyDateTime) (t : PyTimestamp) :
    (convert_to_local_time loc t).aware = false := by
  unfold convert_to_local_time
  split
  · rfl
  · simp_all

theorem chainLe3_naive (a b c : PyTimestamp) (ha : a.aware = false) (hb : b.aware = false)
    (hc : c.aware = false) : chainLe3 a b c = .ok (dtLe a.dt b.dt && dtLe b.dt c.dt) := by
  unfold chainLe3 pyLe
  rw [ha, hb, hc]
  simp only [if_pos rfl]
  cases dtLe a.dt b.dt <;> simp

theorem filterOneEvent_both (loc : PyDateTime → PyDateTime) (month year : Nat) (ev : VEvent)
    (s e : ICalDT) (hs : ev.dtstart = some s) (he : ev.dtend = some e) :
    filterOneEvent loc month year ev = .ok (
      (dtLe (periodStart month year) (convert_to_local_time loc (ensure_datetime s)).dt &&
       dtLe (convert_to_local_time loc (ensure_datetime s)).dt (periodEnd month year)) ||
      (dtLe (periodStart month year) (convert_to_local_time loc (ensure_datetime e)).dt &&
       dtLe (convert_to_local_time loc (ensure_datetime e)).dt (periodEnd month year))) := by
  unfold filterOneEvent
  rw [hs, he]
  simp only
  rw [chainLe3_naive _ _ _ rfl (convert_to_local_time_not_aware loc _) rfl,
      chainLe3_naive _ _ _ rfl (convert_to_local_time_not_aware loc _) rfl]
  cases h1 : dtLe (periodStart month year) (convert_to_local_time loc (ensure_datetime s)).dt <;>
    cases h2 : dtLe (convert_to_local_time loc (ensure_datetime s)).dt (periodEnd month year) <;>
      simp

theorem filterOneEvent_cases (loc : PyDateTime → PyDateTime) (month year : Nat) (ev : VEvent) :
    (∃ b, filterOneEvent loc month year ev = .ok b) ∨
    filterOneEvent loc month year ev = .error .attributeError := by
  cases hs : ev.dtstart with
  | none =>
    right
    unfold filterOneEvent
    rw [hs]
  | some s =>
    cases he : ev.dtend with
    | none =>
      right
      unfold filterOneEvent
      rw [hs, he]
    | some e => exact Or.inl ⟨_, filterOneEvent_both loc month year ev s e hs he⟩

/-- C2 counterexample: for month 1, year 2024 the code's period end is
Jan 31 at 00:00:00 — one whole day was subtracted, not one second — so
the claimed bound Jan 31 23:59:59 is wrong. -/
theorem period_end_january_not_2359 :
    periodEnd 1 2024 = ⟨2024, 1, 31, 0, 0, 0⟩ ∧
    periodEnd 1 2024 ≠ ⟨2024, 1, 31, 23, 59, 59⟩ := by decide

/-- C2 (amended): for every month 1..12 the period bounds are
[first day of the month 00:00:00, last day of the month 00:00:00],
obtained by stepping to the first day of the following month and
subtracting one day; the December case rolls the year over, so the
month-12 period ends Dec 31 00:00:00 of the same year, not Jan 1 of the
next. -/
theorem period_bounds_amended (month year : Nat) (h1 : 1 ≤ month) (h2 : month ≤ 12) :
    periodStart month year = ⟨year, month, 1, 0, 0, 0⟩ ∧
    periodEnd month year = ⟨year, month, daysInMonth year month, 0, 0, 0⟩ := by
  refine ⟨rfl, ?_⟩
  by_cases h : month = 12
  · subst h
    show predDay ⟨year + 1, 1, 1, 0, 0, 0⟩ = _
    unfold predDay daysInMonth
    simp
  · unfold periodEnd
    rw [if_neg h]
    unfold predDay
    have hd : ¬ (1 < (⟨year, month + 1, 1, 0, 0, 0⟩ : PyDateTime).day) := by simp
    have hm : 1 < (⟨year, month + 1, 1, 0, 0, 0⟩ : PyDateTime).month := by simp; omega
    rw [if_neg hd, if_pos hm]
    simp

/-- C2 witness: at month 12, year 2024 the rollover ends the period at
Dec 31 2024, 00:00:00. -/
theorem period_bounds_amended_check :
    periodEnd 12 2024 = ⟨2024, 12, 31, 0, 0, 0⟩ := by
  exact (period_bounds_amended 12 2024 (by decide) (by decide)).2.trans (by decide)

/-- C3: for every event with both start and end present, the filter of
`generate_invoices.py` selects it exactly when its (converted) start
falls within the period bounds or its (converted) end does — an
inclusive disjunctive test, and no error is raised. -/
theorem filter_overlap (loc : PyDateTime → PyDateTime) (month year : Nat) (ev : VEvent)
    (s e : ICalDT) (hs : ev.dtstart = some s) (he : ev.dtend = some e) :
    filterOneEvent loc month year ev = .ok (decide (
      (PyDateTime.le (periodStart month year) (convert_to_local_time loc (ensure_datetime s)).dt ∧
       PyDateTime.le (convert_to_local_time loc (ensure_datetime s)).dt (periodEnd month year)) ∨
      (PyDateTime.le (periodStart month year) (convert_to_local_time loc (ensure_datetime e)).dt ∧
       PyDateTime.le (convert_to_local_time loc (ensure_datetime e)).dt (periodEnd month year)))) := by
  rw [filterOneEvent_both loc month year ev s e hs he]
  simp only [dtLe, Bool.decide_or, Bool.decide_and]

/-- C3 witness: an event starting before March 2024 and ending inside it
is selected for month 3, year 2024. -/
theorem filter_overlap_check : filterOneEvent id 3 2024 evSpan = .ok true := by
  exact (filter_overlap id 3 2024 evSpan _ _ rfl rfl).trans (by decide)

/-- C4: on an event with a start but no end, the filter of
`generate_invoices.py` raises `AttributeError` (aborting the run)
instead of selecting on the start alone, while `parse_ical` of
`run-reu_claude.py` selects the same event on its start and gives it a
null duration. -/
theorem missing_dtend_behavior :
    filterOneEvent id 3 2024 evNoEnd = .error .attributeError ∧
    parse_ical id 3 2024 [evNoEnd] = .ok
      [⟨"ABC".data, ⟨⟨2024, 3, 5, 10, 0, 0⟩, false⟩, "Termin".data, "Pflege".data, none⟩] := by
  decide

/-- C5 counterexample: a feed of two events in which the second lacks
`dtstart` makes the whole filter call raise `AttributeError`; the first
event, which parses fine on its own, is not returned — the run aborts
rather than skipping the single bad event. -/
theorem missing_dtstart_aborts_feed :
    filter_events_by_month_and_year id 3 2024 [evGoodMar, evBadNoStart]
      = .error .attributeError ∧
    filter_events_by_month_and_year id 3 2024 [evGoodMar] = .ok [evGoodMar] := by
  decide

/-- C5 (amended): whenever any VEVENT of the feed lacks `dtstart`, the
whole filter call fails with `AttributeError` and no events at all are
returned — there is no per-event recovery. -/
theorem missing_dtstart_error (loc : PyDateTime → PyDateTime) (month year : Nat)
    (evs : List VEvent) (h : ∃ ev ∈ evs, ev.dtstart = none) :
    filter_events_by_month_and_year loc month year evs = .error .attributeError := by
  induction evs with
  | nil => obtain ⟨ev, hm, _⟩ := h; cases hm
  | cons ev rest ih =>
    obtain ⟨w, hw, hnone⟩ := h
    rcases List.mem_cons.mp hw with h1 | h1
    · subst h1
      have hev : filterOneEvent loc month year w = .error .attributeError := by
        unfold filterOneEvent
        rw [hnone]
      unfold filter_events_by_month_and_year
      rw [hev]
    · have tail := ih ⟨w, h1, hnone⟩
      rcases filterOneEvent_cases loc month year ev with ⟨b, hb⟩ | hb
      · unfold filter_events_by_month_and_year
        rw [hb, tail]
      · unfold filter_events_by_month_and_year
        rw [hb]

/-- C5 witness: a single-event feed missing `dtstart` fails with
`AttributeError`. -/
theorem missing_dtstart_error_check :
    filter_events_by_month_and_year id 3 2024 [evBadNoStart] = .error .attributeError :=
  missing_dtstart_error id 3 2024 [evBadNoStart] ⟨evBadNoStart, List.mem_singleton.mpr rfl, rfl⟩

theorem beginsWithCustomerCode_length {d : List Char} (h : beginsWithCustomerCode d) :
    4 ≤ d.length := by
  obtain ⟨a, b, c, r, rfl, _⟩ := h
  simp

theorem beginsWithCustomerCode_iff (c1 c2 c3 c4 : Char) (rest : List Char) :
    beginsWithCustomerCode (c1 :: c2 :: c3 :: c4 :: rest) ↔
    (isUpperAlpha c1 && isUpperAlpha c2 && isUpperAlpha c3 && (c4 == ':')) = true := by
  constructor
  · rintro ⟨a, b, c, r, heq, ⟨ha1, ha2⟩, ⟨hb1, hb2⟩, ⟨hc1, hc2⟩⟩
    simp only [List.cons.injEq] at heq
    obtain ⟨rfl, rfl, rfl, rfl, rfl⟩ := heq
    simp [isUpperAlpha, ha1, ha2, hb1, hb2, hc1, hc2]
  · intro h
    simp only [isUpperAlpha, Bool.and_eq_true, decide_eq_true_eq, beq_iff_eq] at h
    obtain ⟨⟨⟨⟨h1a, h1b⟩, h2a, h2b⟩, h3a, h3b⟩, h4⟩ := h
    subst h4
    exact ⟨c1, c2, c3, rest, rfl, ⟨h1a, h1b⟩, ⟨h2a, h2b⟩, ⟨h3a, h3b⟩⟩

/-- C1: the classifier of the pipeline returns a result exactly when the
description begins, anchored at position 0, with exactly three uppercase
ASCII letters immediately followed by a colon; in that case the customer
code is those three letters and the cleaned description is the remainder
after the colon with surrounding whitespace stripped; every other
description yields `none` (the event is dropped) and no error. -/
theorem classifier_anchored (d : List Char) :
    (classifyDescription d = none ↔ ¬ beginsWithCustomerCode d) ∧
    (beginsWithCustomerCode d → classifyDescription d = some (d.take 3, pyStrip (d.drop 4))) := by
  rcases d with _ | ⟨c1, _ | ⟨c2, _ | ⟨c3, _ | ⟨c4, rest⟩⟩⟩⟩
  case nil =>
    have hnb : ¬ beginsWithCustomerCode [] := fun h => by
      have := beginsWithCustomerCode_length h; simp at this
    exact ⟨⟨fun _ => hnb, fun _ => rfl⟩, fun h => absurd h hnb⟩
  case cons.nil =>
    have hnb : ¬ beginsWithCustomerCode [c1] := fun h => by
      have := beginsWithCustomerCode_length h; simp at this
    exact ⟨⟨fun _ => hnb, fun _ => rfl⟩, fun h => absurd h hnb⟩
  case cons.cons.nil =>
    have hnb : ¬ beginsWithCustomerCode [c1, c2] := fun h => by
      have := beginsWithCustomerCode_length h; simp at this
    exact ⟨⟨fun _ => hnb, fun _ => rfl⟩, fun h => absurd h hnb⟩
  case cons.cons.cons.nil =>
    have hnb : ¬ beginsWithCustomerCode [c1, c2, c3] := fun h => by
      have := beginsWithCustomerCode_length h; simp at this
    exact ⟨⟨fun _ => hnb, fun _ => rfl⟩, fun h => absurd h hnb⟩
  case cons.cons.cons.cons =>
    have hb := beginsWithCustomerCode_iff c1 c2 c3 c4 rest
    by_cases hcond : (isUpperAlpha c1 && isUpperAlpha c2 && isUpperAlpha c3 && (c4 == ':')) = true
    · have hmc : matchCode (c1 :: c2 :: c3 :: c4 :: rest) = some [c1, c2, c3] := by
        show (if (isUpperAlpha c1 && isUpperAlpha c2 && isUpperAlpha c3 && (c4 == ':')) = true
          then some [c1, c2, c3] else none) = some [c1, c2, c3]
        rw [if_pos hcond]
      have hc : classifyDescription (c1 :: c2 :: c3 :: c4 :: rest) =
          some ((c1 :: c2 :: c3 :: c4 :: rest).take 3,
            pyStrip ((c1 :: c2 :: c3 :: c4 :: rest).drop 4)) := by
        unfold classifyDescription
        rw [hmc]
        rfl
      refine ⟨⟨fun h => ?_, fun hn => absurd (hb.mpr hcond) hn⟩, fun _ => hc⟩
      rw [hc] at h
      exact absurd h (by simp)
    · have hmc : matchCode (c1 :: c2 :: c3 :: c4 :: rest) = none := by
        show (if (isUpperAlpha c1 && isUpperAlpha c2 && isUpperAlpha c3 && (c4 == ':')) = true
          then some [c1, c2, c3] else none) = none
        rw [if_neg hcond]
      have hc : classifyDescription (c1 :: c2 :: c3 :: c4 :: rest) = none := by
        unfold classifyDescription
        rw [hmc]
      have hnb : ¬ beginsWithCustomerCode (c1 :: c2 :: c3 :: c4 :: rest) :=
        fun h => hcond (hb.mp h)
      exact ⟨⟨fun _ => hnb, fun _ => hc⟩, fun h => absurd h hnb⟩

/-- C1 witness: `"ABC: did work"` matches and classifies to code `ABC`
with cleaned description `"did work"`. -/
theorem classifier_anchored_check :
    beginsWithCustomerCode ("ABC: did work".data) ∧
    classifyDescription ("ABC: did work".data) = some ("ABC".data, "did work".data) := by
  have hb : beginsWithCustomerCode ("ABC: did work".data) :=
    ⟨'A', 'B', 'C', " did work".data, by decide, by decide, by decide, by decide⟩
  exact ⟨hb, ((classifier_anchored ("ABC: did work".data)).2 hb).trans (by decide)⟩

theorem foldl_addDuration (l : List ClassifiedEvent) (a : Int) :
    l.foldl addDuration a = a + (l.filterMap ClassifiedEvent.duration).sum := by
  induction l generalizing a with
  | nil => simp
  | cons x xs ih =>
    rw [List.foldl_cons, ih]
    cases hx : x.duration with
    | none => simp [addDuration, hx]
    | some dd =>
      by_cases hz : dd = 0
      · subst hz; simp [addDuration, hx]
      · simp only [addDuration, hx, if_neg hz, List.filterMap_cons, List.sum_cons]
        rw [add_assoc]

theorem perm_insertByDate (e : ClassifiedEvent) (l : List ClassifiedEvent) :
    List.Perm (insertByDate e l) (e :: l) := by
  induction l with
  | nil => exact List.Perm.refl _
  | cons x xs ih =>
    unfold insertByDate
    by_cases h : dtLt x.date.dt e.date.dt = true
    · rw [if_pos h]
      exact (ih.cons x).trans (List.Perm.swap e x xs)
    · rw [if_neg h]

theorem sortByDate_perm (l : List ClassifiedEvent) : List.Perm (sortByDate l) l := by
  induction l with
  | nil => exact List.Perm.refl _
  | cons x xs ih =>
    show List.Perm (insertByDate x (sortByDate xs)) (x :: xs)
    exact (perm_insertByDate x _).trans (ih.cons x)

theorem create_pdf_total_eq_sum (l : List ClassifiedEvent) :
    create_pdf_total l = (l.filterMap ClassifiedEvent.duration).sum := by
  unfold create_pdf_total
  rw [foldl_addDuration, zero_add]
  exact List.Perm.sum_eq (List.Perm.filterMap _ (sortByDate_perm l))

/-- C6 counterexample: an event whose stored end (09:00) precedes its
start (10:00) is parsed by `run-reu_claude.py` into a classified event
with the negative duration -3600 s — no `DataConsistencyError`, no
exclusion — and that negative duration is summed into the customer
total. -/
theorem negative_duration_summed :
    parse_ical id 3 2024 [evNeg] = .ok
      [⟨"ABC".data, ⟨⟨2024, 3, 5, 10, 0, 0⟩, false⟩, [], "x".data, some (-3600)⟩] ∧
    create_pdf_total
      [⟨"ABC".data, ⟨⟨2024, 3, 5, 10, 0, 0⟩, false⟩, [], "x".data, some (-3600)⟩] = -3600 := by
  decide

/-- C6 (amended): the per-event duration is computed as `end - start`
with no sign check — an event whose end precedes its start is kept, its
duration is negative, and the customer total simply sums every non-null
duration, negative ones included. -/
theorem duration_unchecked (loc : PyDateTime → PyDateTime) (month year : Nat) (ev : VEvent)
    (s e : PyDateTime) (code : List Char)
    (hs : ev.dtstart = some (.dateTime s false)) (he : ev.dtend = some (.dateTime e false))
    (hm : s.month = month) (hy : s.year = year) (hc : matchCode ev.description = some code) :
    parseOneEvent loc month year ev = .ok (some
      ⟨code, ⟨s, false⟩, ev.summary, pyStrip (ev.description.drop 4),
        some (toSecs e - toSecs s)⟩) ∧
    ∀ l : List ClassifiedEvent,
      create_pdf_total l = (l.filterMap ClassifiedEvent.duration).sum := by
  refine ⟨?_, create_pdf_total_eq_sum⟩
  unfold parseOneEvent
  rw [hs]
  simp only [claudeNormalize]
  rw [if_pos ⟨hm, hy⟩, hc, he]
  simp only [claudeNormalize, pySub]
  rfl

/-- C6 witness: the amended statement at the concrete event `evNeg`. -/
theorem duration_unchecked_check :
    parseOneEvent id 3 2024 evNeg = .ok (some
      ⟨"ABC".data, ⟨⟨2024, 3, 5, 10, 0, 0⟩, false⟩, [], "x".data, some (-3600)⟩) ∧
    create_pdf_total [ce90] = 5400 := by
  have h := duration_unchecked id 3 2024 evNeg ⟨2024, 3, 5, 10, 0, 0⟩ ⟨2024, 3, 5, 9, 0, 0⟩
    ("ABC".data) rfl rfl rfl rfl (by decide)
  exact ⟨h.1.trans (by decide), (h.2 [ce90]).trans (by decide)⟩

/-- C7: the customer total is the sum of all non-null per-event
durations (a zero duration is skipped by the code's truthiness test but
contributes nothing, so the total is unchanged), rendered by floor
division into hours and minutes with any sub-minute remainder
truncated: the 90-minute event 2024-03-01 09:00 to 10:30 formats as
(1, 30), i.e. `01:30`, and events of 90, 45 and 15 minutes total
9000 s, formatted (2, 30), i.e. `02:30`; 5430 s still formats (1, 30). -/
theorem total_duration_sum_and_format :
    (∀ l : List ClassifiedEvent,
      create_pdf_total l = (l.filterMap ClassifiedEvent.duration).sum) ∧
    parse_ical id 3 2024 [evMar90] = .ok [ce90] ∧
    ce90.duration = some 5400 ∧
    hoursMinutes 5400 = (1, 30) ∧
    create_pdf_total [ce90, ce45, ce15] = 9000 ∧
    hoursMinutes 9000 = (2, 30) ∧
    hoursMinutes 5430 = (1, 30) := by
  exact ⟨create_pdf_total_eq_sum, by decide, by decide, by decide, by decide, by decide, by decide⟩

/-- C9: `run-reu_claude.py` does not store timestamps as naive local
time: on an event with an aware start and a naive end the duration
subtraction mixes aware and naive and the whole parse aborts with
`TypeError`, while `generate_invoices.py`'s `convert_to_local_time`
normalizes both sides to naive and filters the same event without
error. -/
theorem aware_naive_mixing :
    parse_ical id 3 2024 [evMixed] = .error .typeError ∧
    filterOneEvent id 3 2024 evMixed = .ok true := by
  decide

theorem mem_insertByDate {y e : ClassifiedEvent} {l : List ClassifiedEvent}
    (h : y ∈ insertByDate e l) : y = e ∨ y ∈ l := by
  induction l with
  | nil => simpa [insertByDate] using h
  | cons x xs ih =>
    unfold insertByDate at h
    by_cases hlt : dtLt x.date.dt e.date.dt = true
    · rw [if_pos hlt] at h
      rcases List.mem_cons.mp h with rfl | h2
      · exact Or.inr (List.mem_cons_self _ _)
      · rcases ih h2 with h3 | h3
        · exact Or.inl h3
        · exact Or.inr (List.mem_cons_of_mem _ h3)
    · rw [if_neg hlt] at h
      rcases List.mem_cons.mp h with rfl | h2
      · exact Or.inl rfl
      · exact Or.inr h2

theorem pairwise_insertByDate (e : ClassifiedEvent) (l : List ClassifiedEvent)
    (h : l.Pairwise (fun a b => PyDateTime.le a.date.dt b.date.dt)) :
    (insertByDate e l).Pairwise (fun a b => PyDateTime.le a.date.dt b.date.dt) := by
  induction l with
  | nil => simp [insertByDate]
  | cons x xs ih =>
    rcases List.pairwise_cons.mp h with ⟨hx, hxs⟩
    unfold insertByDate
    by_cases hlt : dtLt x.date.dt e.date.dt = true
    · rw [if_pos hlt]
      refine List.pairwise_cons.mpr ⟨fun y hy => ?_, ih hxs⟩
      rcases mem_insertByDate hy with rfl | hy'
      · have hl : PyDateTime.lt x.date.dt y.date.dt := of_decide_eq_true hlt
        unfold PyDateTime.lt at hl
        unfold PyDateTime.le
        omega
      · exact hx y hy'
    · rw [if_neg hlt]
      have hnl : ¬ PyDateTime.lt x.date.dt e.date.dt := by
        intro hc
        exact hlt (decide_eq_true hc)
      have hle : PyDateTime.le e.date.dt x.date.dt := by
        unfold PyDateTime.lt at hnl
        unfold PyDateTime.le
        omega
      refine List.pairwise_cons.mpr ⟨fun y hy => ?_, h⟩
      rcases List.mem_cons.mp hy with rfl | hy'
      · exact hle
      · have h1 := hx y hy'
        unfold PyDateTime.le at *
        omega

theorem sortByDate_pairwise (l : List ClassifiedEvent) :
    (sortByDate l).Pairwise (fun a b => PyDateTime.le a.date.dt b.date.dt) := by
  induction l with
  | nil => simp [sortByDate]
  | cons x xs ih =>
    show (insertByDate x (sortByDate xs)).Pairwise _
    exact pairwise_insertByDate x _ ih

theorem filter_insertByDate (e : ClassifiedEvent) (l : List ClassifiedEvent) (k : PyDateTime) :
    (insertByDate e l).filter (fun x => decide (x.date.dt = k)) =
      if e.date.dt = k
      then e :: l.filter (fun x => decide (x.date.dt = k))
      else l.filter (fun x => decide (x.date.dt = k)) := by
  induction l with
  | nil =>
    by_cases he : e.date.dt = k <;> simp [insertByDate, List.filter, he]
  | cons x xs ih =>
    unfold insertByDate
    by_cases hlt : dtLt x.date.dt e.date.dt = true
    · rw [if_pos hlt]
      by_cases hx : x.date.dt = k
      · have hl : PyDateTime.lt x.date.dt e.date.dt := of_decide_eq_true hlt
        have hek : ¬ e.date.dt = k := by
          intro hek
          rw [hx.trans hek.symm] at hl
          unfold PyDateTime.lt at hl
          omega
        rw [if_neg hek]
        rw [List.filter_cons_of_pos (by simpa using hx), ih, if_neg hek,
          List.filter_cons_of_pos (by simpa using hx)]
      · rw [List.filter_cons_of_neg (by simpa using hx), ih]
        by_cases he : e.date.dt = k
        · rw [if_pos he, if_pos he, List.filter_cons_of_neg (by simpa using hx)]
        · rw [if_neg he, if_neg he, List.filter_cons_of_neg (by simpa using hx)]
    · rw [if_neg hlt]
      by_cases he : e.date.dt = k
      · rw [if_pos he, List.filter_cons_of_pos (by simpa using he)]
      · rw [if_neg he, List.filter_cons_of_neg (by simpa using he)]

theorem sortByDate_filter (l : List ClassifiedEvent) (k : PyDateTime) :
    (sortByDate l).filter (fun x => decide (x.date.dt = k)) =
      l.filter (fun x => decide (x.date.dt = k)) := by
  induction l with
  | nil => rfl
  | cons x xs ih =>
    show (insertByDate x (sortByDate xs)).filter _ = _
    rw [filter_insertByDate]
    by_cases hx : x.date.dt = k
    · rw [if_pos hx, ih, List.filter_cons_of_pos (by simpa using hx)]
    · rw [if_neg hx, ih, List.filter_cons_of_neg (by simpa using hx)]

theorem lookupGroup_addToGroup (gs : List (List Char × List ClassifiedEvent))
    (c c' : List Char) (e : ClassifiedEvent) :
    lookupGroup (addToGroup gs c e) c' =
      if c' = c then lookupGroup gs c' ++ [e] else lookupGroup gs c' := by
  induction gs with
  | nil =>
    by_cases h : c' = c
    · subst h; simp [addToGroup, lookupGroup]
    · rw [if_neg h]
      show (if c = c' then [e] else lookupGroup [] c') = lookupGroup [] c'
      rw [if_neg (fun hh : c = c' => h hh.symm)]
  | cons g rest ih =>
    obtain ⟨k, l⟩ := g
    unfold addToGroup
    by_cases hk : k = c
    · rw [if_pos hk]
      subst hk
      unfold lookupGroup
      by_cases h' : k = c'
      · rw [if_pos h', if_pos h', if_pos h'.symm]
      · rw [if_neg h', if_neg h', if_neg (fun hh : c' = k => h' hh.symm)]
    · rw [if_neg hk]
      unfold lookupGroup
      by_cases h' : k = c'
      · rw [if_pos h', if_pos h']
        rw [if_neg (fun hh : c' = c => hk (h'.trans hh))]
      · rw [if_neg h', if_neg h']
        exact ih

theorem lookupGroup_foldl (evs : List ClassifiedEvent)
    (gs : List (List Char × List ClassifiedEvent)) (c : List Char) :
    lookupGroup (evs.foldl (fun gs e => addToGroup gs e.customer_code e) gs) c =
      lookupGroup gs c ++ evs.filter (fun e => decide (e.customer_code = c)) := by
  induction evs generalizing gs with
  | nil => simp
  | cons e rest ih =>
    rw [List.foldl_cons, ih, lookupGroup_addToGroup]
    by_cases h : c = e.customer_code
    · rw [if_pos h, List.filter_cons_of_pos (by simpa using h.symm), List.append_assoc]
      rfl
    · rw [if_neg h, List.filter_cons_of_neg (by simpa using fun hh => h hh.symm)]

theorem lookupGroup_group_by_customer (evs : List ClassifiedEvent) (c : List Char) :
    lookupGroup (group_by_customer evs) c =
      evs.filter (fun e => decide (e.customer_code = c)) := by
  have h := lookupGroup_foldl evs [] c
  simpa [group_by_customer, lookupGroup] using h

theorem joinGroups_addToGroup (gs : List (List Char × List ClassifiedEvent))
    (c : List Char) (e : ClassifiedEvent) :
    List.Perm (joinGroups (addToGroup gs c e)) (joinGroups gs ++ [e]) := by
  induction gs with
  | nil => simp [addToGroup, joinGroups]
  | cons g rest ih =>
    obtain ⟨k, l⟩ := g
    unfold addToGroup
    by_cases hk : k = c
    · rw [if_pos hk]
      show List.Perm ((l ++ [e]) ++ joinGroups rest) ((l ++ joinGroups rest) ++ [e])
      rw [List.append_assoc, List.append_assoc]
      exact List.Perm.append_left l List.perm_append_comm
    · rw [if_neg hk]
      show List.Perm (l ++ joinGroups (addToGroup rest c e)) ((l ++ joinGroups rest) ++ [e])
      rw [List.append_assoc]
      exact List.Perm.append_left l ih

theorem joinGroups_foldl (evs : List ClassifiedEvent)
    (gs : List (List Char × List ClassifiedEvent)) :
    List.Perm (joinGroups (evs.foldl (fun gs e => addToGroup gs e.customer_code e) gs))
      (joinGroups gs ++ evs) := by
  induction evs generalizing gs with
  | nil => simp
  | cons e rest ih =>
    rw [List.foldl_cons]
    refine (ih _).trans ?_
    have h1 : List.Perm (joinGroups (addToGroup gs e.customer_code e) ++ rest)
        ((joinGroups gs ++ [e]) ++ rest) :=
      List.Perm.append_right rest (joinGroups_addToGroup gs e.customer_code e)
    refine h1.trans ?_
    rw [List.append_assoc]
    exact List.Perm.refl _

theorem joinGroups_group_by_customer (evs : List ClassifiedEvent) :
    List.Perm (joinGroups (group_by_customer evs)) evs := by
  have h := joinGroups_foldl evs []
  simpa [group_by_customer, joinGroups] using h

theorem addToGroup_ok (gs : List (List Char × List ClassifiedEvent)) (c : List Char)
    (e : ClassifiedEvent) (hce : e.customer_code = c)
    (h : ∀ p ∈ gs, p.2 ≠ [] ∧ ∀ x ∈ p.2, x.customer_code = p.1) :
    ∀ p ∈ addToGroup gs c e, p.2 ≠ [] ∧ ∀ x ∈ p.2, x.customer_code = p.1 := by
  induction gs with
  | nil =>
    intro p hp
    simp only [addToGroup, List.mem_singleton] at hp
    subst hp
    refine ⟨by simp, fun x hx => ?_⟩
    simp only [List.mem_singleton] at hx
    subst hx
    exact hce
  | cons g rest ih =>
    obtain ⟨k, l⟩ := g
    intro p hp
    unfold addToGroup at hp
    by_cases hk : k = c
    · rw [if_pos hk] at hp
      rcases List.mem_cons.mp hp with rfl | hp'
      · have hg := h (k, l) (List.mem_cons_self _ _)
        refine ⟨by simp, fun x hx => ?_⟩
        rcases List.mem_append.mp hx with hx' | hx'
        · exact hg.2 x hx'
        · simp only [List.mem_singleton] at hx'
          subst hx'
          exact hce.trans hk.symm
      · exact h p (List.mem_cons_of_mem _ hp')
    · rw [if_neg hk] at hp
      rcases List.mem_cons.mp hp with rfl | hp'
      · exact h (k, l) (List.mem_cons_self _ _)
      · exact ih (fun q hq => h q (List.mem_cons_of_mem _ hq)) p hp'

theorem foldl_groups_ok (evs : List ClassifiedEvent)
    (gs : List (List Char × List ClassifiedEvent))
    (h : ∀ p ∈ gs, p.2 ≠ [] ∧ ∀ x ∈ p.2, x.customer_code = p.1) :
    ∀ p ∈ evs.foldl (fun gs e => addToGroup gs e.customer_code e) gs,
      p.2 ≠ [] ∧ ∀ x ∈ p.2, x.customer_code = p.1 := by
  induction evs generalizing gs with
  | nil => exact h
  | cons e rest ih =>
    rw [List.foldl_cons]
    exact ih _ (addToGroup_ok gs e.customer_code e rfl h)

/-- C8: for every customer code `c`, the event list the invoice is
rendered from is sorted ascending by start, is a permutation of the
classified events carrying code `c` in their original encounter order,
and events with equal starts keep that encounter order (stability,
stated as filter-by-key invariance). -/
theorem dataset_sorted_stable (evs : List ClassifiedEvent) (c : List Char) :
    (invoiceEvents evs c).Pairwise (fun a b => PyDateTime.le a.date.dt b.date.dt) ∧
    List.Perm (invoiceEvents evs c) (evs.filter (fun e => decide (e.customer_code = c))) ∧
    ∀ k : PyDateTime,
      (invoiceEvents evs c).filter (fun x => decide (x.date.dt = k)) =
        (evs.filter (fun e => decide (e.customer_code = c))).filter
          (fun x => decide (x.date.dt = k)) := by
  refine ⟨sortByDate_pairwise _, ?_, fun k => ?_⟩
  · unfold invoiceEvents
    rw [lookupGroup_group_by_customer]
    exact sortByDate_perm _
  · unfold invoiceEvents
    rw [sortByDate_filter, lookupGroup_group_by_customer]

/-- C10: grouping by customer code partitions the classified events:
the group of every code `c` is exactly the input's subsequence of events
whose own code is `c`, the concatenation of all groups is a permutation
of the input (nothing dropped, nothing duplicated), and every key
present in the result has a non-empty group all of whose events carry
that key. -/
theorem group_partition (evs : List ClassifiedEvent) :
    (∀ c, lookupGroup (group_by_customer evs) c =
      evs.filter (fun e => decide (e.customer_code = c))) ∧
    List.Perm (joinGroups (group_by_customer evs)) evs ∧
    ∀ p ∈ group_by_customer evs, p.2 ≠ [] ∧ ∀ e ∈ p.2, e.customer_code = p.1 := by
  refine ⟨lookupGroup_group_by_customer evs, joinGroups_group_by_customer evs, ?_⟩
  exact foldl_groups_ok evs [] (by simp)

/-- C10 witness: two `ABC` events group into one non-empty `ABC` bucket
holding both, in encounter order. -/
theorem group_partition_check :
    lookupGroup (group_by_customer [ce90, ce45]) ("ABC".data) = [ce90, ce45] ∧
    ("ABC".data, [ce90, ce45]).2 ≠ ([] : List ClassifiedEvent) := by
  have h := group_partition [ce90, ce45]
  refine ⟨(h.1 ("ABC".data)).trans (by decide), ?_⟩
  exact (h.2.2 ("ABC".data, [ce90, ce45]) (by decide)).1
